import Mathlib

/-!
Verification of the CostWatch analytics engine
(src/services/analytics-engine/app/services/ml_predictor.py and
src/services/analytics-engine/app/services/analytics_service.py).

The Python source is shallowly embedded over the rationals: every float
computation of the source becomes exact arithmetic over `ℚ`.  Quantities the
source obtains through a square root (z-scores, standard deviations) are
irrational in general, so every comparison the source makes against such a
quantity is embedded as the equivalent comparison of squares (both sides of
the original comparison are non-negative wherever the source evaluates it,
so squaring is an exact translation, not an approximation).  Python's
`round(x, k)` (round half to even) is embedded as `pyRound x k`.
-/

namespace CostWatch

/-- Banker's rounding of a rational to an integer, the semantics of Python's
built-in `round`: round to the nearest integer, ties going to the even
integer. -/
def pyRoundInt (q : ℚ) : ℤ :=
  let f := ⌊q⌋
  let r := q - f
  if r < 1/2 then f else if 1/2 < r then f + 1 else if Even f then f else f + 1

/-- Python's `round(q, k)`: banker's rounding to `k` decimal places. -/
def pyRound (q : ℚ) (k : ℕ) : ℚ := (pyRoundInt (q * 10 ^ k) : ℚ) / 10 ^ k

/-- Arithmetic mean, the embedding of `np.mean` (0 on the empty list, a case
every caller in the source guards). -/
def mean (l : List ℚ) : ℚ := l.sum / l.length

/-- Population variance, the square of `np.std` (`ddof = 0`). -/
def popVar (l : List ℚ) : ℚ := ((l.map (fun x => (x - mean l) ^ 2)).sum) / l.length

/-- Sum of the indices `0..n-1` as rationals. -/
def idxSum (n : ℕ) : ℚ := ((List.range n).map (fun i => (i : ℚ))).sum

/-- Sum of the squared indices `0..n-1` as rationals. -/
def idxSqSum (n : ℕ) : ℚ := ((List.range n).map (fun i => ((i : ℚ)) ^ 2)).sum

/-- Sum of `t * y t` over the series, the mixed moment of the least-squares
fit over the index axis `t = 0..n-1`. -/
def idxDotSum (l : List ℚ) : ℚ :=
  (((List.range l.length).zip l).map (fun p => (p.1 : ℚ) * p.2)).sum

/-- Least-squares slope of the line fitted over index `t = 0..n-1`, the
closed form computed by `sklearn.LinearRegression` / `np.polyfit(x, y, 1)`. -/
def lsSlope (l : List ℚ) : ℚ :=
  let n : ℚ := l.length
  (n * idxDotSum l - idxSum l.length * l.sum) /
    (n * idxSqSum l.length - idxSum l.length ^ 2)

/-- Least-squares intercept: `mean y - slope * mean t`. -/
def lsIntercept (l : List ℚ) : ℚ :=
  mean l - lsSlope l * (idxSum l.length / (l.length : ℚ))

/-- Value of the fitted line at index `t`. -/
def lsPredict (l : List ℚ) (t : ℚ) : ℚ := lsIntercept l + lsSlope l * t

/-- One entry of a forecast, one per future day
(ml_predictor.py:173-180; the source dict also carries a `date` string
derived from the wall clock `datetime.now()`, which a pure embedding cannot
carry and no claim mentions). -/
structure PredictionEntry where
  day : ℕ
  predicted_cost : ℚ
  confidence : ℚ
deriving DecidableEq

/-- The `model_performance` sub-dict of the linear-regression forecast
(ml_predictor.py:189-192). -/
structure ModelPerformance where
  mean_absolute_error : ℚ
  r_squared : ℚ
deriving DecidableEq

/-- Result dict of the forecaster (ml_predictor.py:127-197, 402-422). -/
structure ForecastResult where
  forecast_type : String
  predictions : List PredictionEntry
  total_predicted_cost : ℚ
  confidence : ℚ
  model_type : String
  trend : String
  model_performance : Option ModelPerformance
deriving DecidableEq

/-- Embeds `MLPredictor._generate_simple_forecast`
(ml_predictor.py:402-422): a constant forecast at the series mean (0 for the
empty series), confidence 0.6. -/
def _generate_simple_forecast (cost_values : List ℚ) (time_horizon : ℕ) : ForecastResult :=
  let avg_cost : ℚ := if cost_values.isEmpty then 0 else mean cost_values
  { forecast_type := "simple_average"
    predictions := (List.range time_horizon).map
      (fun i => ⟨i + 1, pyRound avg_cost 2, 3/5⟩)
    total_predicted_cost := pyRound (avg_cost * time_horizon) 2
    confidence := 3/5
    model_type := "simple_average"
    trend := "stable"
    model_performance := none }

/-- In-sample mean absolute error of the least-squares fit
(ml_predictor.py:160-161). -/
def lsMae (l : List ℚ) : ℚ :=
  (((List.range l.length).zip l).map
    (fun p => |p.2 - lsPredict l (p.1 : ℚ)|)).sum / (l.length : ℚ)

/-- Coefficient of determination of the in-sample fit, `model.score(X, y)`
(ml_predictor.py:191), with sklearn's convention for a constant series:
when the total sum of squares is zero the score is 1 for a perfect fit and
0 otherwise. -/
def lsR2 (l : List ℚ) : ℚ :=
  let ssRes := (((List.range l.length).zip l).map
    (fun p => (p.2 - lsPredict l (p.1 : ℚ)) ^ 2)).sum
  let ssTot := (l.map (fun y => (y - mean l) ^ 2)).sum
  if ssTot = 0 then (if ssRes = 0 then 1 else 0) else 1 - ssRes / ssTot

/-- Embeds `MLPredictor._generate_cost_forecast` (ml_predictor.py:127-197):
fewer than 3 samples fall back to the simple forecast; an all-zero series
returns the constant-zero forecast; otherwise a least-squares line is fitted
over `t = 0..n-1`, projected over `t = n..n+horizon-1`, and every projected
value is clamped to be non-negative (`np.maximum(future_predictions, 0)`,
line 157).  The unused `account_id` parameter of the source is kept. -/
def _generate_cost_forecast (cost_values : List ℚ) (time_horizon : ℕ)
    (_account_id : String) : ForecastResult :=
  if cost_values.length < 3 then _generate_simple_forecast cost_values time_horizon
  else if cost_values.all (fun x => x = 0) then
    { forecast_type := "zero_cost"
      predictions := (List.range time_horizon).map (fun i => ⟨i + 1, 0, 19/20⟩)
      total_predicted_cost := 0
      confidence := 19/20
      model_type := "constant_zero"
      trend := "stable"
      model_performance := none }
  else
    let n := cost_values.length
    let future : List ℚ := (List.range time_horizon).map
      (fun i => max (lsPredict cost_values ((n : ℚ) + (i : ℚ))) 0)
    let mae := lsMae cost_values
    let confidence := max (1/2) (min (19/20) (1 - mae / (mean cost_values + 1/1000)))
    let slope := lsSlope cost_values
    let trend := if slope > 1/100 then "increasing"
      else if slope < -(1/100) then "decreasing" else "stable"
    { forecast_type := "linear_regression"
      predictions := (List.range time_horizon).map
        (fun i => ⟨i + 1,
          pyRound (max (lsPredict cost_values ((n : ℚ) + (i : ℚ))) 0) 2,
          pyRound confidence 2⟩)
      total_predicted_cost := pyRound future.sum 2
      confidence := pyRound confidence 2
      model_type := "linear_regression"
      trend := trend
      model_performance := some ⟨pyRound mae 3, pyRound (lsR2 cost_values) 3⟩ }

/-- Embeds the `try/except` boundary of `_generate_cost_forecast`
(ml_predictor.py:129, 195-197): the body either produces a result or raises,
and a raise is converted into `_generate_simple_forecast` on the same
arguments — the same fallback used for insufficient data. -/
def _generate_cost_forecast_checked (cost_values : List ℚ) (time_horizon : ℕ)
    (body : Except String ForecastResult) : ForecastResult :=
  match body with
  | Except.ok r => r
  | Except.error _ => _generate_simple_forecast cost_values time_horizon

/-- Result dict of `AnalyticsService._calculate_overall_trend_from_data`
(analytics_service.py:135-171); the two degenerate branches return a dict
without the `slope` key, embedded as `none`. -/
structure TrendResult where
  direction : String
  strength : ℚ
  slope : Option ℚ
  confidence : String
deriving DecidableEq

/-- Embeds `AnalyticsService._calculate_overall_trend_from_data`
(analytics_service.py:135-171).  The source's `np.std(y) == 0` test is
embedded as `popVar cost_values = 0` (a standard deviation vanishes exactly
when the variance does). -/
def _calculate_overall_trend_from_data (cost_values : List ℚ) : TrendResult :=
  if cost_values.length < 2 then ⟨"stable", 0, none, "low"⟩
  else if popVar cost_values = 0 then ⟨"stable", 0, none, "high"⟩
  else
    let slope := lsSlope cost_values
    let mean_cost := mean cost_values
    let trend_strength := if mean_cost > 0 then |slope| / mean_cost * 100 else 0
    let direction := if slope > 1/100 then "increasing"
      else if slope < -(1/100) then "decreasing" else "stable"
    ⟨direction, pyRound trend_strength 2, some (pyRound slope 4),
      if cost_values.length > 14 then "high" else "medium"⟩

/-- Result dict of `AnalyticsService._calculate_volatility_from_data`
(analytics_service.py:194-219).  The source reports
`volatility = np.std(daily_changes) * 100`, an irrational number in
general; the embedding carries its square `volatility_scoreSq =
popVar daily_changes * 10000` and performs every stability comparison on
squares (both sides of each source comparison are non-negative, so this is
exact).  The degenerate branch reports 0, whose square is the same 0.  The
`max_daily_change` key is absent from the degenerate branch (`none`). -/
structure VolatilityResult where
  volatility_scoreSq : ℚ
  stability : String
  max_daily_change : Option ℚ
deriving DecidableEq

/-- Embeds `AnalyticsService._calculate_volatility_from_data`
(analytics_service.py:194-219): day-over-day relative deltas
`np.diff(arr) / (arr[:-1] + 0.001)`, stability classified from
`std * 100` at cutoffs 5/15/30 (compared through squares at 25/225/900),
and `max_daily_change = round(max |delta| * 100, 2)`. -/
def _calculate_volatility_from_data (cost_values : List ℚ) : VolatilityResult :=
  if cost_values.length < 2 then ⟨0, "unknown", none⟩
  else
    let daily_changes := List.zipWith (fun prev next => (next - prev) / (prev + 1/1000))
      cost_values cost_values.tail
    let volSq := popVar daily_changes * 10000
    let stability := if volSq < 25 then "very_stable"
      else if volSq < 225 then "stable"
      else if volSq < 900 then "moderate" else "volatile"
    ⟨volSq, stability,
      some (pyRound ((daily_changes.map (fun c => |c|)).foldr max 0 * 100) 2)⟩

/-- Record dict produced by the anomaly detection paths of
`MLPredictor.detect_anomalies` and its three helper methods
(ml_predictor.py:50-125, 270-373).  The source returns heterogeneous Python
dicts; absent keys are embedded as `none`.  The statistical record's
`deviation` key (the rounded z-score, line 295) is irrational in general
and mentioned by no claim, so it is not carried; every comparison the
source makes against the z-score is embedded exactly through squares. -/
structure AnomalyRecord where
  type : String
  message : Option String
  severity : String
  account_id : Option String
  date : Option String
  actual_cost : Option ℚ
  expected_cost : Option ℚ
  anomaly_score : Option ℚ
  deviation_percent : Option ℚ
  analysis_period : Option String
  data_points : Option ℕ
  sensitivity : Option String
  method : Option String
deriving DecidableEq

/-- Embeds `MLPredictor._get_severity_score` (ml_predictor.py:397-400):
`critical=4, high=3, medium=2, low=1`, anything else (including `info`) 0. -/
def _get_severity_score (severity : String) : ℕ :=
  if severity = "critical" then 4
  else if severity = "high" then 3
  else if severity = "medium" then 2
  else if severity = "low" then 1 else 0

/-- Single informational record for series shorter than 7 samples
(ml_predictor.py:66-72). -/
def insufficientRec (account_id : String) : AnomalyRecord :=
  ⟨"insufficient_data", some "Need at least 7 days of data for anomaly detection",
    "info", some account_id, none, none, none, none, none, none, none, none, none⟩

/-- Single informational record for an all-zero series
(ml_predictor.py:74-84). -/
def allZeroRec (account_id : String) (dates : List String) (n : ℕ)
    (sensitivity : String) : AnomalyRecord :=
  ⟨"no_anomalies", some "No cost anomalies detected - all costs are zero",
    "info", some account_id, none, none, none, none, none,
    some (dates.headD "" ++ " to " ++ (dates.getLast?.getD "")), some n,
    some sensitivity, none⟩

/-- Single informational record when deduplication leaves nothing
(ml_predictor.py:105-114). -/
def noSignificantRec (account_id : String) (dates : List String) (n : ℕ)
    (sensitivity : String) : AnomalyRecord :=
  ⟨"no_significant_anomalies",
    some "No significant cost anomalies detected in the analysis period",
    "info", some account_id, none, none, none, none, none,
    some (dates.headD "" ++ " to " ++ (dates.getLast?.getD "")), some n,
    some sensitivity, none⟩

/-- Single structured error record produced by the detector's `except`
handler (ml_predictor.py:118-125). -/
def errorRec (account_id : String) (msg : String) : AnomalyRecord :=
  ⟨"error", some ("Anomaly detection failed: " ++ msg), "error",
    some account_id, none, none, none, none, none, none, none, none, none⟩

/-- Sensitivity-to-threshold table of the z-score method
(ml_predictor.py:281-282): `low→3.0, medium→2.5, high→2.0`, default 2.5. -/
def statThreshold (sensitivity : String) : ℚ :=
  if sensitivity = "low" then 3
  else if sensitivity = "medium" then 5/2
  else if sensitivity = "high" then 2 else 5/2

/-- Severity of a statistical anomaly (ml_predictor.py:289): `critical` for
`z > 3.5`, `high` for `z > 3.0`, else `medium`; compared through squares
(`devSq = (x - mean)^2` against `12.25·var` and `9·var`). -/
def zSeverity (devSq varv : ℚ) : String :=
  if devSq > (49/4) * varv then "critical"
  else if devSq > 9 * varv then "high" else "medium"

/-- Embeds `MLPredictor._detect_statistical_anomalies`
(ml_predictor.py:270-304).  A sample is flagged when `|x - mean| / std >
threshold`; since `std = √var` is irrational in general, the test is
embedded exactly as `(x - mean)^2 > threshold^2 · var` (both sides of the
source comparison are non-negative where it runs, because the method exits
early when `std == 0`). -/
def _detect_statistical_anomalies (samples : List (String × ℚ))
    (sensitivity : String) : List AnomalyRecord :=
  let costs := samples.map (fun p => p.2)
  let m := mean costs
  let v := popVar costs
  if v = 0 then []
  else
    let t := statThreshold sensitivity
    (List.range samples.length).filterMap (fun i =>
      let x := costs.getD i 0
      if (x - m) ^ 2 > t ^ 2 * v then
        some ⟨"statistical_anomaly", none, zSeverity ((x - m) ^ 2) v, none,
          some (samples.getD i ("", 0)).1, some (pyRound x 2), some (pyRound m 2),
          none, none, none, none, none, some "z_score"⟩
      else none)

/-- Ascending sort of a rational list (the sorted view `np.percentile`
interpolates over). -/
def sortedAsc (l : List ℚ) : List ℚ := l.mergeSort (fun a b => decide (a ≤ b))

/-- Embeds `np.percentile(l, q)` with the default linear interpolation:
for the ascending sort `s` of `l` and `h = q·(len-1)/100`, the value is
`s[⌊h⌋] + (h - ⌊h⌋)·(s[⌊h⌋+1] - s[⌊h⌋])` (the upper index clamped to the
last element). -/
def npPercentile (l : List ℚ) (q : ℚ) : ℚ :=
  let s := sortedAsc l
  if s.isEmpty then 0
  else
    let h : ℚ := q * ((s.length : ℚ) - 1) / 100
    let i : ℕ := (⌊h⌋).toNat
    let lo := s.getD i 0
    let hi := s.getD (i + 1) lo
    lo + (h - (⌊h⌋ : ℚ)) * (hi - lo)

/-- Sensitivity-to-contamination table of the isolation-forest method
(ml_predictor.py:312-313): `low→0.05, medium→0.10, high→0.15`, default
0.10. -/
def contaminationOf (sensitivity : String) : ℚ :=
  if sensitivity = "low" then 1/20
  else if sensitivity = "medium" then 1/10
  else if sensitivity = "high" then 3/20 else 1/10

/-- Embeds `MLPredictor._detect_ml_anomalies` (ml_predictor.py:306-337) at
the boundary of the external sklearn library.  For
`IsolationForest(contamination=c, random_state=42)` the per-point raw
scores `score_samples(X)` depend only on the data and the fixed seed —
never on the contamination — so they enter the embedding as the parameter
`scores`.  Fitting sets `offset_ = np.percentile(score_samples(X), 100·c)`,
`fit_predict` labels a point `-1` (anomalous) exactly when its score lies
below `offset_`, and `decision_function = score_samples - offset_` is the
signed score the source compares with `-0.5` for the severity. -/
def _detect_ml_anomalies (samples : List (String × ℚ)) (scores : List ℚ)
    (sensitivity : String) : List AnomalyRecord :=
  let contamination := contaminationOf sensitivity
  let offset := npPercentile scores (100 * contamination)
  (List.range scores.length).filterMap (fun i =>
    let s := scores.getD i 0
    if s < offset then
      some ⟨"ml_anomaly", none, (if s - offset < -(1/2) then "high" else "medium"),
        none, some (samples.getD i ("", 0)).1,
        some (pyRound (samples.getD i ("", 0)).2 2), none,
        some (pyRound |s - offset| 3), none, none, none, none,
        some "isolation_forest"⟩
    else none)

/-- Sensitivity-to-threshold table of the moving-average method
(ml_predictor.py:350-351): `low→0.5, medium→0.3, high→0.2`, default 0.3. -/
def trendThreshold (sensitivity : String) : ℚ :=
  if sensitivity = "low" then 1/2
  else if sensitivity = "medium" then 3/10
  else if sensitivity = "high" then 1/5 else 3/10

/-- Centered rolling mean of window `w` at index `i`, the embedding of
`pd.Series(costs).rolling(window=w, center=True).mean().iloc[i]`: with
`off = (w-1)/2` (integer division) the window covers indices
`i+1+off-w .. i+off`, and the value is defined (`pd.notna`) exactly when
that window lies fully inside the series (`min_periods` defaults to the
window size). -/
def movingAvgAt (costs : List ℚ) (w : ℕ) (i : ℕ) : Option ℚ :=
  let off := (w - 1) / 2
  if w ≤ i + 1 + off ∧ i + off < costs.length then
    some (((costs.drop (i + 1 + off - w)).take w).sum / (w : ℚ))
  else none

/-- Embeds `MLPredictor._detect_trend_anomalies` (ml_predictor.py:339-373):
window `min(7, n // 2)`, relative deviation
`|x - avg| / (avg + 0.001)` against the sensitivity threshold, severity
`high` above 0.8. -/
def _detect_trend_anomalies (samples : List (String × ℚ))
    (sensitivity : String) : List AnomalyRecord :=
  let costs := samples.map (fun p => p.2)
  if samples.length < 5 then []
  else
    let w := min 7 (samples.length / 2)
    let t := trendThreshold sensitivity
    (List.range samples.length).filterMap (fun i =>
      match movingAvgAt costs w i with
      | none => none
      | some m =>
        let dev := |costs.getD i 0 - m| / (m + 1/1000)
        if dev > t then
          some ⟨"trend_anomaly", none, (if dev > 4/5 then "high" else "medium"),
            none, some (samples.getD i ("", 0)).1, some (pyRound (costs.getD i 0) 2),
            some (pyRound m 2), none, some (pyRound (dev * 100) 1), none, none,
            none, some "moving_average"⟩
        else none)

/-- Comparison used to embed
`sorted(values, key=lambda x: (score(severity), date), reverse=True)`
(ml_predictor.py:387-389): `a` may precede `b` exactly when the key of `b`
is lexicographically at most the key of `a` (Python's `reverse=True` keeps
the sort stable, which is exactly a stable merge sort under this
relation). -/
def sortKeyGe (a b : AnomalyRecord) : Bool :=
  decide (_get_severity_score b.severity < _get_severity_score a.severity ∨
    (_get_severity_score b.severity = _get_severity_score a.severity ∧
      b.date.getD "" ≤ a.date.getD ""))

/-- One step of building the `date_anomalies` dict
(ml_predictor.py:379-384).  Python's `if date:` skips records whose `date`
is missing or the empty string; an insertion-ordered dict is embedded as an
association list, and overwriting a key keeps its position. -/
def dedupStep (m : List (String × AnomalyRecord)) (a : AnomalyRecord) :
    List (String × AnomalyRecord) :=
  match a.date with
  | none => m
  | some d =>
    if d = "" then m
    else
      match List.lookup d m with
      | none => m ++ [(d, a)]
      | some b =>
        if _get_severity_score b.severity < _get_severity_score a.severity then
          m.map (fun p => if p.1 = d then (d, a) else p)
        else m

/-- Embeds `MLPredictor._deduplicate_anomalies` (ml_predictor.py:375-395):
group by date keeping the strictly higher severity, then stable-sort the
kept records by `(severity score, date)` descending. -/
def _deduplicate_anomalies (anomalies : List AnomalyRecord) : List AnomalyRecord :=
  ((anomalies.foldl dedupStep []).map (fun p => p.2)).mergeSort sortKeyGe

/-- Concatenated candidate list produced inside `detect_anomalies`
(ml_predictor.py:86-100): statistical candidates, then the isolation-forest
candidates (only when the series has more than one distinct value), then
the moving-average candidates. -/
def anomalyCandidates (samples : List (String × ℚ)) (scores : List ℚ)
    (sensitivity : String) : List AnomalyRecord :=
  _detect_statistical_anomalies samples sensitivity ++
    (if 1 < (samples.map (fun p => p.2)).dedup.length then
      _detect_ml_anomalies samples scores sensitivity else []) ++
    _detect_trend_anomalies samples sensitivity

/-- The deduplicated, severity-sorted anomaly list of a series
(`unique_anomalies` at ml_predictor.py:103). -/
def uniqueAnomalies (samples : List (String × ℚ)) (scores : List ℚ)
    (sensitivity : String) : List AnomalyRecord :=
  _deduplicate_anomalies (anomalyCandidates samples scores sensitivity)

/-- Embeds `MLPredictor.detect_anomalies` (ml_predictor.py:50-116) from the
point where the per-day `(date, cost)` samples have been extracted.  The
`scores` parameter carries the isolation-forest raw scores (see
`_detect_ml_anomalies`); the source runs that method only when the series
has more than one distinct value (`len(set(cost_values)) > 1`, line 94). -/
def detect_anomalies (account_id : String) (samples : List (String × ℚ))
    (scores : List ℚ) (sensitivity : String) : List AnomalyRecord :=
  let costs := samples.map (fun p => p.2)
  let dates := samples.map (fun p => p.1)
  if samples.length < 7 then [insufficientRec account_id]
  else if costs.all (fun x => x = 0) then
    [allZeroRec account_id dates samples.length sensitivity]
  else
    let unique := uniqueAnomalies samples scores sensitivity
    if unique.isEmpty then
      [noSignificantRec account_id dates samples.length sensitivity]
    else unique.take 10

/-- Embeds the `try/except` boundary of `detect_anomalies`
(ml_predictor.py:52, 118-125): the body either produces a record list or
raises, and a raise is converted into a single structured error record. -/
def detect_anomalies_checked (account_id : String)
    (body : Except String (List AnomalyRecord)) : List AnomalyRecord :=
  match body with
  | Except.ok v => v
  | Except.error e => [errorRec account_id e]

/-- Date under which deduplication groups a record: `some d` exactly when
the record carries a non-empty date string (Python's truthiness test
`if date:` at ml_predictor.py:381-382). -/
def keyOfRec (a : AnomalyRecord) : Option String :=
  match a.date with
  | none => none
  | some d => if d = "" then none else some d

/-- Scenario E input of the spec: a 3-day series `[10, 500, 10]`. -/
def scenESamples : List (String × ℚ) :=
  [("2024-01-01", 10), ("2024-01-02", 500), ("2024-01-03", 10)]

/-- Well-formedness of the association list embedding the `date_anomalies`
dict: keys are distinct and every stored record groups under its key. -/
def DMapWF (m : List (String × AnomalyRecord)) : Prop :=
  (m.map (fun p => p.1)).Nodup ∧ ∀ p ∈ m, keyOfRec p.2 = some p.1

/-- Concrete 7-day series with one spike on the last day, used to
instantiate the anomaly theorems at a concrete input. -/
def spikeSamples : List (String × ℚ) :=
  [("2024-01-01", 10), ("2024-01-02", 10), ("2024-01-03", 10),
    ("2024-01-04", 10), ("2024-01-05", 10), ("2024-01-06", 10),
    ("2024-01-07", 500)]

/-- Non-negativity of banker's rounding on non-negative input. -/
theorem pyRoundInt_nonneg {q : ℚ} (h : 0 ≤ q) : 0 ≤ pyRoundInt q := by
  unfold pyRoundInt
  have hf : (0 : ℤ) ≤ ⌊q⌋ := Int.floor_nonneg.mpr h
  dsimp only
  split
  · exact hf
  · split
    · omega
    · split
      · exact hf
      · omega

/-- Non-negativity of `pyRound` on non-negative input. -/
theorem pyRound_nonneg {q : ℚ} (k : ℕ) (h : 0 ≤ q) : 0 ≤ pyRound q k := by
  unfold pyRound
  apply div_nonneg
  · exact_mod_cast pyRoundInt_nonneg (by positivity)
  · positivity

/-- Mean of a list of non-negative rationals is non-negative. -/
theorem mean_nonneg {l : List ℚ} (h : ∀ x ∈ l, 0 ≤ x) : 0 ≤ mean l := by
  unfold mean
  apply div_nonneg (List.sum_nonneg h)
  exact_mod_cast Nat.zero_le _

/-- Mean of a constant non-empty list is that constant. -/
theorem mean_of_const {l : List ℚ} {c : ℚ} (hl : l ≠ []) (h : ∀ x ∈ l, x = c) :
    mean l = c := by
  unfold mean
  rw [List.sum_eq_card_nsmul l c h]
  have hn : (l.length : ℚ) ≠ 0 := by
    exact_mod_cast fun h0 => hl (List.length_eq_zero.mp h0)
  field_simp [nsmul_eq_mul]

/-- Sum of a list of non-negative rationals is zero exactly when every
element is zero. -/
theorem sum_nonneg_eq_zero_iff {l : List ℚ} (h : ∀ x ∈ l, 0 ≤ x) :
    l.sum = 0 ↔ ∀ x ∈ l, x = 0 := by
  induction l with
  | nil => simp
  | cons a t ih =>
    have ha : 0 ≤ a := h a (List.mem_cons_self a t)
    have ht : ∀ x ∈ t, 0 ≤ x := fun x hx => h x (List.mem_cons_of_mem a hx)
    have hts : 0 ≤ t.sum := List.sum_nonneg ht
    simp only [List.sum_cons, List.mem_cons]
    constructor
    · intro h0
      have h1 : a = 0 := by linarith
      have h2 : t.sum = 0 := by linarith
      intro x hx
      rcases hx with rfl | hx
      · exact h1
      · exact (ih ht).mp h2 x hx
    · intro hall
      have h1 : a = 0 := hall a (Or.inl rfl)
      have h2 : t.sum = 0 := (ih ht).mpr (fun x hx => hall x (Or.inr hx))
      rw [h1, h2, add_zero]

/-- Population variance vanishes exactly on constant series (for non-empty
input); this bridges the source's `np.std(y) == 0` test with the spec's
"all costs are equal". -/
theorem popVar_eq_zero_iff {l : List ℚ} (hl : l ≠ []) :
    popVar l = 0 ↔ ∃ c, ∀ x ∈ l, x = c := by
  have hn : (l.length : ℚ) ≠ 0 := by
    exact_mod_cast fun h0 => hl (List.length_eq_zero.mp h0)
  have hsq : ∀ x ∈ l.map (fun x => (x - mean l) ^ 2), 0 ≤ x := by
    intro x hx
    rcases List.mem_map.mp hx with ⟨y, _, rfl⟩
    positivity
  unfold popVar
  rw [div_eq_zero_iff]
  constructor
  · intro h
    rcases h with h | h
    · refine ⟨mean l, fun x hx => ?_⟩
      have := (sum_nonneg_eq_zero_iff hsq).mp h ((x - mean l) ^ 2)
        (List.mem_map.mpr ⟨x, hx, rfl⟩)
      have := pow_eq_zero_iff (n := 2) (by norm_num) |>.mp this
      linarith [sub_eq_zero.mp this]
    · exact absurd h hn
  · rintro ⟨c, hc⟩
    left
    apply (sum_nonneg_eq_zero_iff hsq).mpr
    intro x hx
    rcases List.mem_map.mp hx with ⟨y, hy, rfl⟩
    rw [hc y hy, mean_of_const hl hc, sub_self]
    ring

/-- Mean of a non-negative, non-constant series is strictly positive. -/
theorem mean_pos_of_popVar_ne {l : List ℚ} (hnn : ∀ x ∈ l, 0 ≤ x)
    (hv : popVar l ≠ 0) : 0 < mean l := by
  have hl : l ≠ [] := by
    rintro rfl
    exact hv (by simp [popVar, mean])
  have hn : (0 : ℚ) < l.length := by
    have : l.length ≠ 0 := fun h0 => hl (List.length_eq_zero.mp h0)
    exact_mod_cast Nat.pos_of_ne_zero this
  rcases lt_or_eq_of_le (List.sum_nonneg hnn) with h | h
  · exact div_pos h hn
  · exfalso
    apply hv
    apply (popVar_eq_zero_iff hl).mpr
    exact ⟨0, (sum_nonneg_eq_zero_iff hnn).mp h.symm⟩

/-- Rounding zero to any number of places gives zero. -/
theorem pyRound_zero (k : ℕ) : pyRound 0 k = 0 := by
  unfold pyRound pyRoundInt
  norm_num

/-- Every prediction of the simple (insufficient-data) forecast is
non-negative when the series is non-negative. -/
theorem simple_forecast_pred_nonneg (cost_values : List ℚ) (time_horizon : ℕ)
    (hnn : ∀ x ∈ cost_values, 0 ≤ x) :
    ∀ p ∈ (_generate_simple_forecast cost_values time_horizon).predictions,
      0 ≤ p.predicted_cost := by
  intro p hp
  unfold _generate_simple_forecast at hp
  simp only [List.mem_map, List.mem_range] at hp
  obtain ⟨i, _, rfl⟩ := hp
  dsimp only
  apply pyRound_nonneg
  split
  · exact le_refl 0
  · exact mean_nonneg hnn

/-- C4. Forecast non-negativity: for every series of non-negative costs and
every horizon, every `predicted_cost` produced by the forecaster is
non-negative — on the linear-regression path (explicit clamping, line 157),
the all-zero path, the simple-average fallback, and the error fallback of
the `try/except` boundary. -/
theorem forecaster_predictions_nonneg (cost_values : List ℚ) (time_horizon : ℕ)
    (account_id : String) (hnn : ∀ x ∈ cost_values, 0 ≤ x) :
    (∀ p ∈ (_generate_cost_forecast cost_values time_horizon account_id).predictions,
        0 ≤ p.predicted_cost) ∧
    (∀ p ∈ (_generate_simple_forecast cost_values time_horizon).predictions,
        0 ≤ p.predicted_cost) ∧
    (∀ e : String,
      ∀ p ∈ (_generate_cost_forecast_checked cost_values time_horizon
          (Except.error e)).predictions, 0 ≤ p.predicted_cost) := by
  refine ⟨?_, simple_forecast_pred_nonneg _ _ hnn, ?_⟩
  · intro p hp
    unfold _generate_cost_forecast at hp
    by_cases h1 : cost_values.length < 3
    · rw [if_pos h1] at hp
      exact simple_forecast_pred_nonneg _ _ hnn p hp
    · rw [if_neg h1] at hp
      by_cases h2 : cost_values.all (fun x => x = 0)
      · rw [if_pos h2] at hp
        simp only [List.mem_map, List.mem_range] at hp
        obtain ⟨i, _, rfl⟩ := hp
        exact le_refl 0
      · rw [if_neg h2] at hp
        simp only [List.mem_map, List.mem_range] at hp
        obtain ⟨i, _, rfl⟩ := hp
        exact pyRound_nonneg _ (le_max_right _ 0)
  · intro e p hp
    exact simple_forecast_pred_nonneg _ _ hnn p hp

/-- Witness for C4 at a concrete series and horizon. -/
theorem forecaster_predictions_nonneg_witness :
    (∀ x ∈ [(5 : ℚ), 7, 9, 11], 0 ≤ x) ∧
    (∀ p ∈ (_generate_cost_forecast [(5 : ℚ), 7, 9, 11] 4 "acct-1").predictions,
        0 ≤ p.predicted_cost) :=
  ⟨by decide, (forecaster_predictions_nonneg [(5 : ℚ), 7, 9, 11] 4 "acct-1" (by decide)).1⟩

/-- C8. Scenario C: the empty series with horizon 5 yields exactly 5
predictions, each with `predicted_cost = 0`, and a `model_type` of
`constant_zero` or `simple_average` (the source takes the `n < 3` branch and
produces the `simple_average` fallback at the mean 0 of the empty series);
the embedding is a total function, so no exception arises. -/
theorem forecaster_empty_series_horizon_five :
    ((_generate_cost_forecast [] 5 "acct-1").predictions.length = 5) ∧
    (∀ p ∈ (_generate_cost_forecast [] 5 "acct-1").predictions, p.predicted_cost = 0) ∧
    ((_generate_cost_forecast [] 5 "acct-1").model_type = "constant_zero" ∨
      (_generate_cost_forecast [] 5 "acct-1").model_type = "simple_average") := by
  have hr : _generate_cost_forecast [] 5 "acct-1" = _generate_simple_forecast [] 5 := by
    unfold _generate_cost_forecast
    rw [if_pos (by decide)]
  refine ⟨?_, ?_, Or.inr ?_⟩
  · rw [hr]
    unfold _generate_simple_forecast
    simp
  · intro p hp
    rw [hr] at hp
    unfold _generate_simple_forecast at hp
    simp only [List.mem_map, List.mem_range, List.isEmpty_nil] at hp
    obtain ⟨i, _, rfl⟩ := hp
    simp [pyRound_zero]
  · rw [hr]
    rfl

/-- C5. Overall trend classification, exactly as
`_calculate_overall_trend_from_data` computes it: fewer than 2 samples give
`stable/0/low`; a constant series gives `stable/0/high`; otherwise the
least-squares slope is classified at the ±0.01 cutoffs, the strength is
`|slope| / mean * 100` (rounded, as the source does, to 2 decimal places),
and the confidence is `high` exactly when `n > 14`, else `medium`. -/
theorem overall_trend_classification (cost_values : List ℚ)
    (hnn : ∀ x ∈ cost_values, 0 ≤ x) :
    (cost_values.length < 2 →
      _calculate_overall_trend_from_data cost_values = ⟨"stable", 0, none, "low"⟩) ∧
    (2 ≤ cost_values.length → (∃ c, ∀ x ∈ cost_values, x = c) →
      _calculate_overall_trend_from_data cost_values = ⟨"stable", 0, none, "high"⟩) ∧
    (2 ≤ cost_values.length → ¬(∃ c, ∀ x ∈ cost_values, x = c) →
      (_calculate_overall_trend_from_data cost_values).direction =
        (if lsSlope cost_values > 1/100 then "increasing"
          else if lsSlope cost_values < -(1/100) then "decreasing" else "stable") ∧
      (_calculate_overall_trend_from_data cost_values).strength =
        pyRound (|lsSlope cost_values| / mean cost_values * 100) 2 ∧
      (_calculate_overall_trend_from_data cost_values).confidence =
        (if 14 < cost_values.length then "high" else "medium")) := by
  refine ⟨?_, ?_, ?_⟩
  · intro h
    unfold _calculate_overall_trend_from_data
    rw [if_pos h]
  · intro h2 hconst
    have hl : cost_values ≠ [] := by
      intro h0
      rw [h0] at h2
      simp at h2
    unfold _calculate_overall_trend_from_data
    rw [if_neg (by omega), if_pos ((popVar_eq_zero_iff hl).mpr hconst)]
  · intro h2 hconst
    have hl : cost_values ≠ [] := by
      intro h0
      rw [h0] at h2
      simp at h2
    have hv : popVar cost_values ≠ 0 := fun h => hconst ((popVar_eq_zero_iff hl).mp h)
    have hm : 0 < mean cost_values := mean_pos_of_popVar_ne hnn hv
    unfold _calculate_overall_trend_from_data
    rw [if_neg (by omega), if_neg hv]
    refine ⟨rfl, ?_, rfl⟩
    dsimp only
    rw [if_pos hm]

/-- Witness for C5 at concrete series: the short-series branch at `[]` and
the non-constant branch at `[1, 2, 3]`. -/
theorem overall_trend_classification_witness :
    ((List.length ([] : List ℚ) < 2) ∧
      _calculate_overall_trend_from_data [] = ⟨"stable", 0, none, "low"⟩) ∧
    ((_calculate_overall_trend_from_data [(1 : ℚ), 2, 3]).confidence =
      (if 14 < List.length [(1 : ℚ), 2, 3] then "high" else "medium")) :=
  ⟨⟨by decide, (overall_trend_classification [] (by decide)).1 (by decide)⟩,
    ((overall_trend_classification [(1 : ℚ), 2, 3] (by decide)).2.2 (by decide)
      (by
        rintro ⟨c, hc⟩
        have h1 := hc 1 (by decide)
        have h2 := hc 2 (by decide)
        have h3 : (2 : ℚ) = 1 := h2.trans h1.symm
        norm_num at h3)).2.2⟩

/-- C10. Implicit edge case of the volatility computation: a series of
fewer than 2 samples yields exactly `volatility_score = 0,
stability = "unknown"` (and no `max_daily_change` key), and `"unknown"` is
outside the four-value classification that every longer series receives. -/
theorem volatility_short_series_unknown (cost_values : List ℚ) :
    (cost_values.length < 2 →
      _calculate_volatility_from_data cost_values = ⟨0, "unknown", none⟩) ∧
    ("unknown" ∉ ["very_stable", "stable", "moderate", "volatile"]) ∧
    (2 ≤ cost_values.length →
      (_calculate_volatility_from_data cost_values).stability ∈
        ["very_stable", "stable", "moderate", "volatile"]) := by
  refine ⟨?_, by decide, ?_⟩
  · intro h
    unfold _calculate_volatility_from_data
    rw [if_pos h]
  · intro h2
    unfold _calculate_volatility_from_data
    rw [if_neg (by omega)]
    dsimp only
    split
    · simp
    · split
      · simp
      · split
        · simp
        · simp

/-- Witness for C10 at the empty series and at a concrete 3-day series. -/
theorem volatility_short_series_unknown_witness :
    (_calculate_volatility_from_data [] = ⟨0, "unknown", none⟩) ∧
    ((_calculate_volatility_from_data [(1 : ℚ), 2, 3]).stability ∈
      ["very_stable", "stable", "moderate", "volatile"]) :=
  ⟨(volatility_short_series_unknown []).1 (by decide),
    (volatility_short_series_unknown [(1 : ℚ), 2, 3]).2.2 (by decide)⟩

/-- C3. Detector shortcuts: a series of fewer than 7 samples yields exactly
the single informational insufficient-data record (which carries no date,
hence no per-date anomaly), and a series of at least 7 samples whose costs
are all zero yields exactly the single informational all-zero record,
returned before any of the three detection methods runs (the result is, in
particular, independent of the isolation-forest scores). -/
theorem detect_shortcuts (account_id : String) (samples : List (String × ℚ))
    (scores : List ℚ) (sensitivity : String) :
    (samples.length < 7 →
      detect_anomalies account_id samples scores sensitivity =
        [insufficientRec account_id]) ∧
    ((insufficientRec account_id).date = none) ∧
    (7 ≤ samples.length → (∀ p ∈ samples, p.2 = 0) →
      detect_anomalies account_id samples scores sensitivity =
        [allZeroRec account_id (samples.map (fun p => p.1)) samples.length
          sensitivity]) := by
  refine ⟨?_, rfl, ?_⟩
  · intro h
    unfold detect_anomalies
    rw [if_pos h]
  · intro h7 hz
    unfold detect_anomalies
    rw [if_neg (by omega), if_pos ?_]
    rw [List.all_eq_true]
    intro x hx
    rcases List.mem_map.mp hx with ⟨p, hp, rfl⟩
    exact decide_eq_true (hz p hp)

/-- Witness for C3: the short-series branch on a 1-day series and the
all-zero branch on a 7-day zero series. -/
theorem detect_shortcuts_witness :
    (detect_anomalies "acct-1" [("2024-01-01", (5 : ℚ))] [] "medium" =
      [insufficientRec "acct-1"]) ∧
    (detect_anomalies "acct-1"
        [("2024-01-01", (0 : ℚ)), ("2024-01-02", 0), ("2024-01-03", 0),
          ("2024-01-04", 0), ("2024-01-05", 0), ("2024-01-06", 0),
          ("2024-01-07", 0)] [] "medium" =
      [allZeroRec "acct-1"
        (List.map (fun p => p.1)
          [("2024-01-01", (0 : ℚ)), ("2024-01-02", 0), ("2024-01-03", 0),
            ("2024-01-04", 0), ("2024-01-05", 0), ("2024-01-06", 0),
            ("2024-01-07", 0)])
        (List.length
          [("2024-01-01", (0 : ℚ)), ("2024-01-02", 0), ("2024-01-03", 0),
            ("2024-01-04", 0), ("2024-01-05", 0), ("2024-01-06", 0),
            ("2024-01-07", 0)]) "medium"]) :=
  ⟨(detect_shortcuts "acct-1" [("2024-01-01", (5 : ℚ))] [] "medium").1 (by decide),
    (detect_shortcuts "acct-1"
      [("2024-01-01", (0 : ℚ)), ("2024-01-02", 0), ("2024-01-03", 0),
        ("2024-01-04", 0), ("2024-01-05", 0), ("2024-01-06", 0),
        ("2024-01-07", 0)] [] "medium").2.2 (by decide) (by decide)⟩

/-- C6 counterexample. On the 3-day series `[10, 500, 10]` the detector at
`sensitivity=high` flags no date at all — in particular not the middle
day — because the `n < 7` shortcut returns the single dateless
informational record before any detection method runs. -/
theorem scenario_e_counterexample :
    ¬ ∃ r ∈ detect_anomalies "acct-1" scenESamples [] "high",
        r.date = some "2024-01-02" := by
  have h : detect_anomalies "acct-1" scenESamples [] "high" =
      [insufficientRec "acct-1"] := by
    unfold detect_anomalies
    rw [if_pos (by decide)]
  rintro ⟨r, hr, hd⟩
  rw [h] at hr
  rw [List.mem_singleton] at hr
  subst hr
  exact Option.noConfusion hd

/-- C6 amended. On the 3-day series `[10, 500, 10]` the detector — at every
sensitivity, in particular `high` — returns exactly the single
informational insufficient-data record and flags no day, because at least
7 samples are required before any per-date anomaly is produced. -/
theorem scenario_e_amended :
    (detect_anomalies "acct-1" scenESamples [] "high" =
      [insufficientRec "acct-1"]) ∧
    (∀ r ∈ detect_anomalies "acct-1" scenESamples [] "high",
      r.date = none ∧ r.severity = "info") := by
  have h : detect_anomalies "acct-1" scenESamples [] "high" =
      [insufficientRec "acct-1"] := by
    unfold detect_anomalies
    rw [if_pos (by decide)]
  refine ⟨h, ?_⟩
  intro r hr
  rw [h, List.mem_singleton] at hr
  subst hr
  exact ⟨rfl, rfl⟩

/-- C7 counterexample. An unexpected failure inside the anomaly detector is
not converted into the insufficient-data fallback record: the `except`
handler produces a structured `error`-severity record instead. -/
theorem error_conversion_counterexample :
    detect_anomalies_checked "acct-1" (Except.error "boom") ≠
      [insufficientRec "acct-1"] := by
  intro h
  have h1 : errorRec "acct-1" "boom" = insufficientRec "acct-1" :=
    List.singleton_injective h
  have h2 : ("error" : String) = "insufficient_data" :=
    congrArg AnomalyRecord.type h1
  exact absurd h2 (by decide)

/-- C7 amended. Unexpected computational failures are caught at each
component boundary and never propagate: the forecaster's failure is
converted into the same simple-average fallback used for insufficient
data, while the anomaly detector's failure is converted into a single
structured error record (severity `error`), which differs from its
insufficient-data record; in both cases the call returns a structured
result. -/
theorem error_conversion_amended :
    (∀ (cost_values : List ℚ) (time_horizon : ℕ) (e : String),
      _generate_cost_forecast_checked cost_values time_horizon (Except.error e) =
        _generate_simple_forecast cost_values time_horizon) ∧
    (∀ account_id e : String,
      detect_anomalies_checked account_id (Except.error e) =
        [errorRec account_id e]) ∧
    (∀ account_id e : String,
      (detect_anomalies_checked account_id (Except.error e)).length = 1) :=
  ⟨fun _ _ _ => rfl, fun _ _ => rfl, fun _ _ => rfl⟩

/-- C9. Implicit invariant: on every input the detector returns between 1
and 10 records — an informational record when nothing is flagged, the
top-10 cut of the deduplicated list otherwise — and the error boundary
converts an internal failure into exactly one record, never an empty
list. -/
theorem detect_result_bounds (account_id : String) (samples : List (String × ℚ))
    (scores : List ℚ) (sensitivity : String) :
    (1 ≤ (detect_anomalies account_id samples scores sensitivity).length ∧
      (detect_anomalies account_id samples scores sensitivity).length ≤ 10) ∧
    (∀ e : String,
      (detect_anomalies_checked account_id (Except.error e)).length = 1) := by
  refine ⟨?_, fun _ => rfl⟩
  unfold detect_anomalies
  dsimp only
  split_ifs with h1 h2 h3
  · simp
  · simp
  · simp
  · rw [List.length_take]
    have hnil : uniqueAnomalies samples scores sensitivity ≠ [] := by
      simpa [List.isEmpty_iff] using h3
    have hpos : 0 < (uniqueAnomalies samples scores sensitivity).length :=
      List.length_pos.mpr hnil
    omega

/-- Characterization of a failed association-list lookup. -/
theorem lookup_none_iff (d : String) (m : List (String × AnomalyRecord)) :
    List.lookup d m = none ↔ ∀ p ∈ m, p.1 ≠ d := by
  induction m with
  | nil => simp
  | cons q t ih =>
    rcases q with ⟨k, b⟩
    by_cases h : d = k
    · subst h
      simp [List.lookup]
    · have hb : (d == k) = false := beq_eq_false_iff_ne.mpr h
      simp only [List.lookup, hb, List.mem_cons]
      rw [ih]
      constructor
      · intro ha p hp
        rcases hp with rfl | hp
        · exact fun hk => h hk.symm
        · exact ha p hp
      · intro ha p hp
        exact ha p (Or.inr hp)

/-- A successful association-list lookup produces a stored pair. -/
theorem lookup_mem {d : String} {m : List (String × AnomalyRecord)}
    {b : AnomalyRecord} (h : List.lookup d m = some b) : (d, b) ∈ m := by
  induction m with
  | nil => simp [List.lookup] at h
  | cons q t ih =>
    rcases q with ⟨k, c⟩
    by_cases hk : d = k
    · subst hk
      simp only [List.lookup, beq_self_eq_true, Option.some.injEq] at h
      subst h
      exact List.mem_cons_self _ _
    · have hb : (d == k) = false := beq_eq_false_iff_ne.mpr hk
      simp only [List.lookup, hb] at h
      exact List.mem_cons_of_mem _ (ih h)

/-- Under distinct keys, an entry is determined by its key. -/
theorem keys_nodup_unique {m : List (String × AnomalyRecord)}
    (h : (m.map (fun p => p.1)).Nodup) {p q : String × AnomalyRecord}
    (hp : p ∈ m) (hq : q ∈ m) (hk : p.1 = q.1) : p = q := by
  induction m with
  | nil => cases hp
  | cons a t ih =>
    rw [List.map_cons, List.nodup_cons] at h
    rcases List.mem_cons.mp hp with rfl | hp₁ <;>
      rcases List.mem_cons.mp hq with rfl | hq₁
    · rfl
    · exact absurd (hk ▸ List.mem_map.mpr ⟨q, hq₁, rfl⟩) h.1
    · exact absurd (hk ▸ List.mem_map.mpr ⟨p, hp₁, rfl⟩) h.1
    · exact ih h.2 hp₁ hq₁

/-- Unfolding of `keyOfRec`. -/
theorem keyOfRec_eq_some {a : AnomalyRecord} {d : String} :
    keyOfRec a = some d ↔ a.date = some d ∧ d ≠ "" := by
  cases h : a.date with
  | none => simp [keyOfRec, h]
  | some e =>
    by_cases he : e = ""
    · subst he
      simp only [keyOfRec, h]
      rw [if_pos trivial]
      constructor
      · intro hc
        cases hc
      · rintro ⟨he2, hd⟩
        injection he2 with he3
        exact absurd he3.symm hd
    · simp only [keyOfRec, h, if_neg he, Option.some.injEq]
      constructor
      · rintro rfl
        exact ⟨rfl, he⟩
      · rintro ⟨he2, _⟩
        exact he2

/-- Equation: a candidate without a groupable date leaves the dict alone. -/
theorem dedupStep_eq_of_keyNone {m : List (String × AnomalyRecord)}
    {a : AnomalyRecord} (hk : keyOfRec a = none) : dedupStep m a = m := by
  cases h : a.date with
  | none => simp [dedupStep, h]
  | some e =>
    simp only [keyOfRec, h] at hk
    by_cases he : e = ""
    · simp [dedupStep, h, he]
    · rw [if_neg he] at hk
      cases hk

/-- Equation: inserting a fresh date appends the entry. -/
theorem dedupStep_eq_insert {m : List (String × AnomalyRecord)}
    {a : AnomalyRecord} {d : String} (hdate : a.date = some d) (hde : d ≠ "")
    (hlk : List.lookup d m = none) : dedupStep m a = m ++ [(d, a)] := by
  simp only [dedupStep, hdate, hlk]
  rw [if_neg hde]

/-- Equation: a strictly higher severity overwrites the stored entry in
place. -/
theorem dedupStep_eq_replace {m : List (String × AnomalyRecord)}
    {a b : AnomalyRecord} {d : String} (hdate : a.date = some d) (hde : d ≠ "")
    (hlk : List.lookup d m = some b)
    (hsev : _get_severity_score b.severity < _get_severity_score a.severity) :
    dedupStep m a = m.map (fun p => if p.1 = d then (d, a) else p) := by
  simp only [dedupStep, hdate, hlk]
  rw [if_neg hde, if_pos hsev]

/-- Equation: a lower-or-equal severity is dropped. -/
theorem dedupStep_eq_keep {m : List (String × AnomalyRecord)}
    {a b : AnomalyRecord} {d : String} (hdate : a.date = some d) (hde : d ≠ "")
    (hlk : List.lookup d m = some b)
    (hsev : ¬ _get_severity_score b.severity < _get_severity_score a.severity) :
    dedupStep m a = m := by
  simp only [dedupStep, hdate, hlk]
  rw [if_neg hde, if_neg hsev]

/-- Replacing one entry in place keeps the key list. -/
theorem replace_keys_eq (m : List (String × AnomalyRecord)) (a : AnomalyRecord)
    (d : String) :
    (m.map (fun p => if p.1 = d then (d, a) else p)).map (fun p => p.1) =
      m.map (fun p => p.1) := by
  rw [List.map_map]
  apply List.map_congr_left
  intro p _
  by_cases hpd : p.1 = d <;> simp [hpd]

/-- One dict step preserves well-formedness. -/
theorem dedupStep_wf {m : List (String × AnomalyRecord)} (a : AnomalyRecord)
    (h : DMapWF m) : DMapWF (dedupStep m a) := by
  obtain ⟨hnd, hwf⟩ := h
  cases hk : keyOfRec a with
  | none =>
    rw [dedupStep_eq_of_keyNone hk]
    exact ⟨hnd, hwf⟩
  | some d =>
    obtain ⟨hdate, hde⟩ := keyOfRec_eq_some.mp hk
    cases hlk : List.lookup d m with
    | none =>
      rw [dedupStep_eq_insert hdate hde hlk]
      constructor
      · rw [List.map_append, List.nodup_append]
        refine ⟨hnd, by simp, ?_⟩
        intro x hx hx1
        rcases List.mem_map.mp hx with ⟨p, hp, rfl⟩
        simp only [List.map_cons, List.map_nil, List.mem_singleton] at hx1
        exact (lookup_none_iff d m).mp hlk p hp hx1
      · intro p hp
        rcases List.mem_append.mp hp with hp | hp
        · exact hwf p hp
        · rw [List.mem_singleton] at hp
          subst hp
          exact hk
    | some b =>
      by_cases hsev : _get_severity_score b.severity < _get_severity_score a.severity
      · rw [dedupStep_eq_replace hdate hde hlk hsev]
        constructor
        · rw [replace_keys_eq]
          exact hnd
        · intro p hp
          rcases List.mem_map.mp hp with ⟨q, hq, rfl⟩
          by_cases hqd : q.1 = d
          · have hq2 : (if q.1 = d then (d, a) else q) = (d, a) := by simp [hqd]
            rw [hq2]
            exact hk
          · have hq2 : (if q.1 = d then (d, a) else q) = q := by simp [hqd]
            rw [hq2]
            exact hwf q hq
      · rw [dedupStep_eq_keep hdate hde hlk hsev]
        exact ⟨hnd, hwf⟩

/-- Every stored record after one step was stored before or is the new
candidate. -/
theorem dedupStep_origin (m : List (String × AnomalyRecord)) (a : AnomalyRecord) :
    ∀ p ∈ dedupStep m a, p ∈ m ∨ p.2 = a := by
  intro p hp
  cases hk : keyOfRec a with
  | none =>
    rw [dedupStep_eq_of_keyNone hk] at hp
    exact Or.inl hp
  | some d =>
    obtain ⟨hdate, hde⟩ := keyOfRec_eq_some.mp hk
    cases hlk : List.lookup d m with
    | none =>
      rw [dedupStep_eq_insert hdate hde hlk] at hp
      rcases List.mem_append.mp hp with hp | hp
      · exact Or.inl hp
      · rw [List.mem_singleton] at hp
        subst hp
        exact Or.inr rfl
    | some b =>
      by_cases hsev : _get_severity_score b.severity < _get_severity_score a.severity
      · rw [dedupStep_eq_replace hdate hde hlk hsev] at hp
        rcases List.mem_map.mp hp with ⟨q, hq, rfl⟩
        by_cases hqd : q.1 = d
        · have hq2 : (if q.1 = d then (d, a) else q) = (d, a) := by simp [hqd]
          rw [hq2]
          exact Or.inr rfl
        · have hq2 : (if q.1 = d then (d, a) else q) = q := by simp [hqd]
          rw [hq2]
          exact Or.inl hq
      · rw [dedupStep_eq_keep hdate hde hlk hsev] at hp
        exact Or.inl hp

/-- One dict step never loses a key and never lowers the severity stored
under it. -/
theorem dedupStep_persist {m : List (String × AnomalyRecord)} (a : AnomalyRecord)
    (h : DMapWF m) :
    ∀ p ∈ m, ∃ q ∈ dedupStep m a, q.1 = p.1 ∧
      _get_severity_score p.2.severity ≤ _get_severity_score q.2.severity := by
  intro p hp
  cases hk : keyOfRec a with
  | none =>
    rw [dedupStep_eq_of_keyNone hk]
    exact ⟨p, hp, rfl, le_refl _⟩
  | some d =>
    obtain ⟨hdate, hde⟩ := keyOfRec_eq_some.mp hk
    cases hlk : List.lookup d m with
    | none =>
      rw [dedupStep_eq_insert hdate hde hlk]
      exact ⟨p, List.mem_append_left _ hp, rfl, le_refl _⟩
    | some b =>
      by_cases hsev : _get_severity_score b.severity < _get_severity_score a.severity
      · rw [dedupStep_eq_replace hdate hde hlk hsev]
        by_cases hpd : p.1 = d
        · have hpb : p = (d, b) :=
            keys_nodup_unique h.1 hp (lookup_mem hlk) (by rw [hpd])
          refine ⟨(d, a), List.mem_map.mpr ⟨p, hp, by simp [hpd]⟩, by rw [hpd], ?_⟩
          rw [hpb]
          exact le_of_lt hsev
        · exact ⟨p, List.mem_map.mpr ⟨p, hp, by simp [hpd]⟩, rfl, le_refl _⟩
      · rw [dedupStep_eq_keep hdate hde hlk hsev]
        exact ⟨p, hp, rfl, le_refl _⟩

/-- After one dict step, the new candidate's date is stored with at least
the candidate's severity. -/
theorem dedupStep_insert {m : List (String × AnomalyRecord)} {a : AnomalyRecord}
    {d : String} (hd : keyOfRec a = some d) :
    ∃ q ∈ dedupStep m a, q.1 = d ∧
      _get_severity_score a.severity ≤ _get_severity_score q.2.severity := by
  obtain ⟨hdate, hde⟩ := keyOfRec_eq_some.mp hd
  cases hlk : List.lookup d m with
  | none =>
    rw [dedupStep_eq_insert hdate hde hlk]
    exact ⟨(d, a), List.mem_append_right _ (List.mem_singleton_self _), rfl, le_refl _⟩
  | some b =>
    by_cases hsev : _get_severity_score b.severity < _get_severity_score a.severity
    · rw [dedupStep_eq_replace hdate hde hlk hsev]
      exact ⟨(d, a), List.mem_map.mpr ⟨(d, b), lookup_mem hlk, by simp⟩, rfl, le_refl _⟩
    · rw [dedupStep_eq_keep hdate hde hlk hsev]
      exact ⟨(d, b), lookup_mem hlk, rfl, le_of_not_lt hsev⟩

/-- Key set after one dict step. -/
theorem dedupStep_keys (m : List (String × AnomalyRecord)) (a : AnomalyRecord) :
    ((dedupStep m a).map (fun p => p.1)).toFinset =
      (m.map (fun p => p.1)).toFinset ∪
        (keyOfRec a).elim ∅ (fun d => {d}) := by
  cases hk : keyOfRec a with
  | none =>
    rw [dedupStep_eq_of_keyNone hk]
    simp
  | some d =>
    obtain ⟨hdate, hde⟩ := keyOfRec_eq_some.mp hk
    cases hlk : List.lookup d m with
    | none =>
      rw [dedupStep_eq_insert hdate hde hlk]
      simp
    | some b =>
      have hdm : d ∈ (m.map (fun p => p.1)).toFinset :=
        List.mem_toFinset.mpr (List.mem_map.mpr ⟨(d, b), lookup_mem hlk, rfl⟩)
      have habsorb : (m.map (fun p => p.1)).toFinset ∪ {d} =
          (m.map (fun p => p.1)).toFinset := by
        rw [Finset.union_comm]
        apply Finset.union_eq_right.mpr
        intro x hx
        rw [Finset.mem_singleton] at hx
        subst hx
        exact hdm
      by_cases hsev : _get_severity_score b.severity < _get_severity_score a.severity
      · rw [dedupStep_eq_replace hdate hde hlk hsev, replace_keys_eq]
        dsimp only [Option.elim]
        rw [habsorb]
      · rw [dedupStep_eq_keep hdate hde hlk hsev]
        dsimp only [Option.elim]
        rw [habsorb]

/-- The empty dict is well-formed. -/
theorem DMapWF_nil : DMapWF [] :=
  ⟨List.nodup_nil, by intro p hp; cases hp⟩

/-- Folding preserves well-formedness. -/
theorem dedupFold_wf (l : List AnomalyRecord) :
    ∀ m, DMapWF m → DMapWF (l.foldl dedupStep m) := by
  induction l with
  | nil => exact fun m h => h
  | cons a t ih =>
    intro m h
    rw [List.foldl_cons]
    exact ih _ (dedupStep_wf a h)

/-- Folding only stores records of the input (or of the initial dict). -/
theorem dedupFold_origin (l : List AnomalyRecord) :
    ∀ m, ∀ p ∈ l.foldl dedupStep m, p ∈ m ∨ p.2 ∈ l := by
  induction l with
  | nil => exact fun m p hp => Or.inl hp
  | cons a t ih =>
    intro m p hp
    rw [List.foldl_cons] at hp
    rcases ih _ p hp with h | h
    · rcases dedupStep_origin m a p h with h2 | h2
      · exact Or.inl h2
      · exact Or.inr (by rw [h2]; exact List.mem_cons_self a t)
    · exact Or.inr (List.mem_cons_of_mem a h)

/-- Folding keeps every stored key with no less severity. -/
theorem dedupFold_persist (l : List AnomalyRecord) :
    ∀ m, DMapWF m → ∀ p ∈ m, ∃ q ∈ l.foldl dedupStep m, q.1 = p.1 ∧
      _get_severity_score p.2.severity ≤ _get_severity_score q.2.severity := by
  induction l with
  | nil => exact fun m _ p hp => ⟨p, hp, rfl, le_refl _⟩
  | cons a t ih =>
    intro m hwf p hp
    rw [List.foldl_cons]
    obtain ⟨q1, hq1, hk1, hs1⟩ := dedupStep_persist a hwf p hp
    obtain ⟨q2, hq2, hk2, hs2⟩ := ih _ (dedupStep_wf a hwf) q1 hq1
    exact ⟨q2, hq2, hk2.trans hk1, le_trans hs1 hs2⟩

/-- Every candidate with a groupable date ends stored under that date with
no less severity. -/
theorem dedupFold_dominate (l : List AnomalyRecord) :
    ∀ m, DMapWF m → ∀ a ∈ l, ∀ d, keyOfRec a = some d →
      ∃ q ∈ l.foldl dedupStep m, q.1 = d ∧
        _get_severity_score a.severity ≤ _get_severity_score q.2.severity := by
  induction l with
  | nil =>
    intro m _ a ha
    cases ha
  | cons b t ih =>
    intro m hwf a ha d hd
    rw [List.foldl_cons]
    rcases List.mem_cons.mp ha with rfl | ha₁
    · obtain ⟨q1, hq1, hk1, hs1⟩ := dedupStep_insert (m := m) hd
      obtain ⟨q2, hq2, hk2, hs2⟩ :=
        dedupFold_persist t _ (dedupStep_wf a hwf) q1 hq1
      exact ⟨q2, hq2, hk2.trans hk1, le_trans hs1 hs2⟩
    · exact ih _ (dedupStep_wf b hwf) a ha₁ d hd

/-- Key set after folding: the initial keys plus every groupable date of
the input. -/
theorem dedupFold_keys (l : List AnomalyRecord) :
    ∀ m, ((l.foldl dedupStep m).map (fun p => p.1)).toFinset =
      (m.map (fun p => p.1)).toFinset ∪ (l.filterMap keyOfRec).toFinset := by
  induction l with
  | nil =>
    intro m
    simp
  | cons a t ih =>
    intro m
    cases hk : keyOfRec a with
    | none =>
      rw [List.foldl_cons, ih, dedupStep_keys, hk, List.filterMap_cons_none hk]
      dsimp only [Option.elim]
      rw [Finset.union_empty]
    | some d =>
      rw [List.foldl_cons, ih, dedupStep_keys, hk,
        List.filterMap_cons_some hk, List.toFinset_cons, Finset.insert_eq]
      dsimp only [Option.elim]
      rw [Finset.union_assoc]

/-- Everything the deduplication returns is one of its input candidates. -/
theorem dedup_mem_subset {l : List AnomalyRecord} {r : AnomalyRecord}
    (h : r ∈ _deduplicate_anomalies l) : r ∈ l := by
  unfold _deduplicate_anomalies at h
  rw [List.mem_mergeSort] at h
  rcases List.mem_map.mp h with ⟨p, hp, rfl⟩
  rcases dedupFold_origin l [] p hp with h2 | h2
  · cases h2
  · exact h2

/-- Every record the deduplication returns carries a groupable date. -/
theorem dedup_mem_key {l : List AnomalyRecord} {r : AnomalyRecord}
    (h : r ∈ _deduplicate_anomalies l) : ∃ d, keyOfRec r = some d := by
  unfold _deduplicate_anomalies at h
  rw [List.mem_mergeSort] at h
  rcases List.mem_map.mp h with ⟨p, hp, rfl⟩
  exact ⟨p.1, (dedupFold_wf l [] DMapWF_nil).2 p hp⟩

/-- The dates of the deduplicated records are pairwise distinct. -/
theorem dedup_dates_nodup (l : List AnomalyRecord) :
    ((_deduplicate_anomalies l).map (fun r => r.date)).Nodup := by
  unfold _deduplicate_anomalies
  have hperm : List.Perm
      ((((l.foldl dedupStep []).map (fun p => p.2)).mergeSort sortKeyGe).map
        (fun r => r.date))
      (((l.foldl dedupStep []).map (fun p => p.2)).map (fun r => r.date)) :=
    List.Perm.map _ (List.mergeSort_perm _ _)
  apply hperm.nodup_iff.mpr
  rw [List.map_map]
  have hwf := dedupFold_wf l [] DMapWF_nil
  have hrw : (l.foldl dedupStep []).map ((fun r : AnomalyRecord => r.date) ∘
      (fun p : String × AnomalyRecord => p.2)) =
      (l.foldl dedupStep []).map (fun p => some p.1) := by
    apply List.map_congr_left
    intro p hp
    exact (keyOfRec_eq_some.mp (hwf.2 p hp)).1
  rw [hrw]
  have : (l.foldl dedupStep []).map (fun p => some p.1) =
      ((l.foldl dedupStep []).map (fun p => p.1)).map Option.some := by
    rw [List.map_map]
    rfl
  rw [this]
  exact hwf.1.map (Option.some_injective String)

/-- A deduplicated record dominates every candidate sharing its date. -/
theorem dedup_max {l : List AnomalyRecord} {r c : AnomalyRecord}
    (hr : r ∈ _deduplicate_anomalies l) (hc : c ∈ l) (hcd : c.date = r.date) :
    _get_severity_score c.severity ≤ _get_severity_score r.severity := by
  obtain ⟨d, hd⟩ := dedup_mem_key hr
  obtain ⟨hrd, hde⟩ := keyOfRec_eq_some.mp hd
  have hcd2 : keyOfRec c = some d := keyOfRec_eq_some.mpr ⟨hcd.trans hrd, hde⟩
  have hwf := dedupFold_wf l [] DMapWF_nil
  unfold _deduplicate_anomalies at hr
  rw [List.mem_mergeSort] at hr
  rcases List.mem_map.mp hr with ⟨p, hp, rfl⟩
  obtain ⟨q, hq, hqk, hqs⟩ := dedupFold_dominate l [] DMapWF_nil c hc d hcd2
  have hpk : p.1 = d := by
    have := hwf.2 p hp
    rw [hd] at this
    injection this with h2
    exact h2.symm
  have hpq : p = q := keys_nodup_unique hwf.1 hp hq (hpk.trans hqk.symm)
  rw [hpq]
  exact hqs

/-- Every candidate's date survives into the deduplicated list. -/
theorem dedup_cover {l : List AnomalyRecord} {c : AnomalyRecord} {d : String}
    (hc : c ∈ l) (hd : keyOfRec c = some d) :
    ∃ r ∈ _deduplicate_anomalies l, r.date = some d := by
  obtain ⟨q, hq, hqk, _⟩ := dedupFold_dominate l [] DMapWF_nil c hc d hd
  have hwf := dedupFold_wf l [] DMapWF_nil
  refine ⟨q.2, ?_, ?_⟩
  · unfold _deduplicate_anomalies
    rw [List.mem_mergeSort]
    exact List.mem_map.mpr ⟨q, hq, rfl⟩
  · rw [← hqk]
    exact (keyOfRec_eq_some.mp (hwf.2 q hq)).1

/-- Transitivity of the descending sort comparison. -/
theorem sortKeyGe_trans : ∀ a b c : AnomalyRecord, sortKeyGe a b = true →
    sortKeyGe b c = true → sortKeyGe a c = true := by
  intro a b c hab hbc
  simp only [sortKeyGe, decide_eq_true_eq] at hab hbc ⊢
  rcases hab with h1 | ⟨h1, h1d⟩ <;> rcases hbc with h2 | ⟨h2, h2d⟩
  · exact Or.inl (lt_trans h2 h1)
  · exact Or.inl (h2 ▸ h1)
  · exact Or.inl (h1 ▸ h2)
  · exact Or.inr ⟨h2.trans h1, le_trans h2d h1d⟩

/-- Totality of the descending sort comparison. -/
theorem sortKeyGe_total : ∀ a b : AnomalyRecord,
    (sortKeyGe a b || sortKeyGe b a) = true := by
  intro a b
  simp only [sortKeyGe, Bool.or_eq_true, decide_eq_true_eq]
  rcases lt_trichotomy (_get_severity_score b.severity)
      (_get_severity_score a.severity) with h | h | h
  · exact Or.inl (Or.inl h)
  · rcases le_total (b.date.getD "") (a.date.getD "") with hd | hd
    · exact Or.inl (Or.inr ⟨h, hd⟩)
    · exact Or.inr (Or.inr ⟨h.symm, hd⟩)
  · exact Or.inr (Or.inl h)

/-- The deduplicated list is sorted by `(severity, date)` descending. -/
theorem dedup_sorted (l : List AnomalyRecord) :
    (_deduplicate_anomalies l).Pairwise (fun a b => sortKeyGe a b = true) := by
  unfold _deduplicate_anomalies
  exact List.sorted_mergeSort sortKeyGe_trans sortKeyGe_total _

/-- The deduplicated list has exactly one record per distinct groupable
date of the input. -/
theorem dedup_length (l : List AnomalyRecord) :
    (_deduplicate_anomalies l).length = ((l.filterMap keyOfRec).toFinset).card := by
  unfold _deduplicate_anomalies
  rw [List.length_mergeSort, List.length_map]
  have hwf := dedupFold_wf l [] DMapWF_nil
  have hkeys := dedupFold_keys l []
  have h1 : ((l.foldl dedupStep []).map (fun p => p.1)).toFinset =
      (l.filterMap keyOfRec).toFinset := by
    simpa using hkeys
  have h2 : ((l.foldl dedupStep []).map (fun p => p.1)).toFinset.card =
      ((l.foldl dedupStep []).map (fun p => p.1)).length :=
    List.toFinset_card_of_nodup hwf.1
  rw [← h1, h2, List.length_map]

/-- Population variance is non-negative. -/
theorem popVar_nonneg (l : List ℚ) : 0 ≤ popVar l := by
  unfold popVar
  apply div_nonneg
  · apply List.sum_nonneg
    intro x hx
    rcases List.mem_map.mp hx with ⟨y, _, rfl⟩
    positivity
  · exact_mod_cast Nat.zero_le _

/-- Bridging the claim's "not all zero" with the source's boolean test. -/
theorem all_zero_eq_false_of_not {samples : List (String × ℚ)}
    (hnz : ¬ ∀ p ∈ samples, p.2 = 0) :
    ((samples.map (fun p => p.2)).all (fun x => x = 0)) = false := by
  rw [List.all_eq_false]
  rcases not_forall.mp hnz with ⟨p, hp⟩
  rcases Classical.not_imp.mp hp with ⟨hmem, hne⟩
  exact ⟨p.2, List.mem_map.mpr ⟨p, hmem, rfl⟩, by simpa using hne⟩

/-- The ascending sort really is ascending. -/
theorem sortedAsc_pairwise (l : List ℚ) :
    (sortedAsc l).Pairwise (fun a b => a ≤ b) := by
  have htr : ∀ a b c : ℚ, decide (a ≤ b) = true → decide (b ≤ c) = true →
      decide (a ≤ c) = true := by
    intro a b c hab hbc
    rw [decide_eq_true_eq] at hab hbc ⊢
    exact le_trans hab hbc
  have hto : ∀ a b : ℚ, (decide (a ≤ b) || decide (b ≤ a)) = true := by
    intro a b
    rcases le_total a b with h | h
    · rw [decide_eq_true h, Bool.true_or]
    · rw [decide_eq_true h, Bool.or_true]
  have h := List.sorted_mergeSort htr hto l
  exact h.imp (fun hab => of_decide_eq_true hab)

/-- Sorting preserves length. -/
theorem sortedAsc_length (l : List ℚ) : (sortedAsc l).length = l.length :=
  List.length_mergeSort l

/-- The default argument of an in-range `getD` is irrelevant. -/
theorem getD_irrel (s : List ℚ) {n : ℕ} (h : n < s.length) (d : ℚ) :
    s.getD n d = s.getD n 0 := by
  rw [List.getD_eq_getElem?_getD, List.getD_eq_getElem?_getD,
    List.getElem?_eq_getElem h]
  rfl

/-- Monotone indexing into an ascending list. -/
theorem sorted_getD_mono {s : List ℚ} (hs : s.Pairwise (fun a b => a ≤ b))
    {i j : ℕ} (hij : i ≤ j) (hj : j < s.length) : s.getD i 0 ≤ s.getD j 0 := by
  rcases eq_or_lt_of_le hij with rfl | hlt
  · exact le_refl _
  · have hi : i < s.length := lt_trans hlt hj
    have h := List.pairwise_iff_get.mp hs ⟨i, hi⟩ ⟨j, hj⟩ hlt
    rw [List.getD_eq_getElem?_getD, List.getD_eq_getElem?_getD,
      List.getElem?_eq_getElem hi, List.getElem?_eq_getElem hj]
    simpa using h

/-- Monotonicity of the linear interpolation `np.percentile` performs, for
interpolation positions `0 ≤ h1 ≤ h2 ≤ len - 1` into an ascending list. -/
theorem interp_mono (s : List ℚ) (hs : s.Pairwise (fun a b => a ≤ b))
    {h1 h2 : ℚ} (h1nn : 0 ≤ h1) (h12 : h1 ≤ h2)
    (h2le : h2 ≤ (s.length : ℚ) - 1) (_hlen : 1 ≤ s.length) :
    s.getD (⌊h1⌋).toNat 0 + (h1 - (⌊h1⌋ : ℚ)) *
        (s.getD ((⌊h1⌋).toNat + 1) (s.getD (⌊h1⌋).toNat 0) -
          s.getD (⌊h1⌋).toNat 0) ≤
      s.getD (⌊h2⌋).toNat 0 + (h2 - (⌊h2⌋ : ℚ)) *
        (s.getD ((⌊h2⌋).toNat + 1) (s.getD (⌊h2⌋).toNat 0) -
          s.getD (⌊h2⌋).toNat 0) := by
  have h2nn : 0 ≤ h2 := le_trans h1nn h12
  have hfl1 : (0 : ℤ) ≤ ⌊h1⌋ := Int.floor_nonneg.mpr h1nn
  have hfl2 : (0 : ℤ) ≤ ⌊h2⌋ := Int.floor_nonneg.mpr h2nn
  have hc1 : ((⌊h1⌋).toNat : ℤ) = ⌊h1⌋ := Int.toNat_of_nonneg hfl1
  have hc2 : ((⌊h2⌋).toNat : ℤ) = ⌊h2⌋ := Int.toNat_of_nonneg hfl2
  have hCast1 : (((⌊h1⌋).toNat : ℕ) : ℚ) = ((⌊h1⌋ : ℤ) : ℚ) := by
    exact_mod_cast congrArg (fun z : ℤ => (z : ℚ)) hc1
  have hCast2 : (((⌊h2⌋).toNat : ℕ) : ℚ) = ((⌊h2⌋ : ℤ) : ℚ) := by
    exact_mod_cast congrArg (fun z : ℤ => (z : ℚ)) hc2
  have hi2lt : (⌊h2⌋).toNat < s.length := by
    have hfloorle : ⌊h2⌋ ≤ ⌊((s.length : ℚ) - 1)⌋ := Int.floor_le_floor h2le
    have hme : ⌊((s.length : ℚ) - 1)⌋ = (s.length : ℤ) - 1 := by
      rw [show ((s.length : ℚ) - 1) = (((s.length : ℤ) - 1 : ℤ) : ℚ) by push_cast; ring]
      exact Int.floor_intCast _
    omega
  have hfr1lo : 0 ≤ h1 - ((⌊h1⌋ : ℤ) : ℚ) := sub_nonneg.mpr (Int.floor_le h1)
  have hfr1hi : h1 - ((⌊h1⌋ : ℤ) : ℚ) < 1 := by
    have := Int.lt_floor_add_one h1
    linarith
  have hfr2lo : 0 ≤ h2 - ((⌊h2⌋ : ℤ) : ℚ) := sub_nonneg.mpr (Int.floor_le h2)
  have hi12 : (⌊h1⌋).toNat ≤ (⌊h2⌋).toNat := by
    have := Int.floor_le_floor h12
    omega
  rcases eq_or_lt_of_le hi12 with heq | hlt
  · have hfeq : ⌊h1⌋ = ⌊h2⌋ := by omega
    rw [heq, hfeq]
    have hD : 0 ≤ s.getD ((⌊h2⌋).toNat + 1) (s.getD (⌊h2⌋).toNat 0) -
        s.getD (⌊h2⌋).toNat 0 := by
      by_cases hr : (⌊h2⌋).toNat + 1 < s.length
      · have := sorted_getD_mono hs (Nat.le_succ (⌊h2⌋).toNat) hr
        rw [getD_irrel s hr]
        linarith
      · rw [List.getD_eq_default _ _ (by omega)]
        linarith
    have hmul : (h1 - ((⌊h2⌋ : ℤ) : ℚ)) *
        (s.getD ((⌊h2⌋).toNat + 1) (s.getD (⌊h2⌋).toNat 0) -
          s.getD (⌊h2⌋).toNat 0) ≤
        (h2 - ((⌊h2⌋ : ℤ) : ℚ)) *
        (s.getD ((⌊h2⌋).toNat + 1) (s.getD (⌊h2⌋).toNat 0) -
          s.getD (⌊h2⌋).toNat 0) :=
      mul_le_mul_of_nonneg_right (by linarith) hD
    linarith
  · have hi1lt : (⌊h1⌋).toNat < s.length := lt_trans hlt hi2lt
    have hi1s : (⌊h1⌋).toNat + 1 < s.length := lt_of_le_of_lt hlt hi2lt
    have hlo1hi1 : s.getD (⌊h1⌋).toNat 0 ≤ s.getD ((⌊h1⌋).toNat + 1) 0 :=
      sorted_getD_mono hs (Nat.le_succ _) hi1s
    have hrw1 : s.getD ((⌊h1⌋).toNat + 1) (s.getD (⌊h1⌋).toNat 0) =
        s.getD ((⌊h1⌋).toNat + 1) 0 := getD_irrel s hi1s _
    have hstep : s.getD ((⌊h1⌋).toNat + 1) 0 ≤ s.getD (⌊h2⌋).toNat 0 :=
      sorted_getD_mono hs hlt hi2lt
    have hD2 : 0 ≤ s.getD ((⌊h2⌋).toNat + 1) (s.getD (⌊h2⌋).toNat 0) -
        s.getD (⌊h2⌋).toNat 0 := by
      by_cases hr : (⌊h2⌋).toNat + 1 < s.length
      · have := sorted_getD_mono hs (Nat.le_succ (⌊h2⌋).toNat) hr
        rw [getD_irrel s hr]
        linarith
      · rw [List.getD_eq_default _ _ (by omega)]
        linarith
    rw [hrw1]
    nlinarith [hfr1lo, hfr1hi, hfr2lo, hlo1hi1, hstep, hD2]

/-- Monotonicity of `np.percentile` in the requested percentile. -/
theorem npPercentile_mono (l : List ℚ) {q1 q2 : ℚ} (h0 : 0 ≤ q1) (h12 : q1 ≤ q2)
    (h100 : q2 ≤ 100) : npPercentile l q1 ≤ npPercentile l q2 := by
  unfold npPercentile
  by_cases hemp : (sortedAsc l).isEmpty
  · rw [if_pos hemp, if_pos hemp]
  · rw [if_neg hemp, if_neg hemp]
    have hlen : 1 ≤ (sortedAsc l).length := by
      cases hsl : sortedAsc l with
      | nil => rw [hsl] at hemp; exact absurd rfl hemp
      | cons a t => simp
    have hm1 : (0 : ℚ) ≤ ((sortedAsc l).length : ℚ) - 1 := by
      have : (1 : ℚ) ≤ ((sortedAsc l).length : ℚ) := by exact_mod_cast hlen
      linarith
    have hh1nn : 0 ≤ q1 * (((sortedAsc l).length : ℚ) - 1) / 100 := by positivity
    have hh12 : q1 * (((sortedAsc l).length : ℚ) - 1) / 100 ≤
        q2 * (((sortedAsc l).length : ℚ) - 1) / 100 := by
      apply div_le_div_of_nonneg_right ?_ (by norm_num)
      exact mul_le_mul_of_nonneg_right h12 hm1
    have hh2le : q2 * (((sortedAsc l).length : ℚ) - 1) / 100 ≤
        ((sortedAsc l).length : ℚ) - 1 := by
      rw [div_le_iff₀ (by norm_num : (0:ℚ) < 100)]
      nlinarith
    exact interp_mono (sortedAsc l) (sortedAsc_pairwise l) hh1nn hh12 hh2le hlen

/-- Unfolding of `uniqueAnomalies`. -/
theorem uniqueAnomalies_def (samples : List (String × ℚ)) (scores : List ℚ)
    (sensitivity : String) :
    uniqueAnomalies samples scores sensitivity =
      _deduplicate_anomalies (anomalyCandidates samples scores sensitivity) := rfl

/-- Shape of the detector's result on the active path (at least 7 samples,
not all zero). -/
theorem detect_eq_of_active (account_id : String) (samples : List (String × ℚ))
    (scores : List ℚ) (sensitivity : String)
    (h7 : ¬ samples.length < 7)
    (hnz : ((samples.map (fun p => p.2)).all (fun x => x = 0)) = false) :
    detect_anomalies account_id samples scores sensitivity =
      if (uniqueAnomalies samples scores sensitivity).isEmpty then
        [noSignificantRec account_id (samples.map (fun p => p.1)) samples.length
          sensitivity]
      else (uniqueAnomalies samples scores sensitivity).take 10 := by
  unfold detect_anomalies
  rw [if_neg h7, if_neg (by simp [hnz])]

/-- Loosening the z-score threshold can only add flagged dates. -/
theorem stat_dates_subset (samples : List (String × ℚ)) {s1 s2 : String}
    (ht : statThreshold s2 ≤ statThreshold s1) (h0 : 0 ≤ statThreshold s2) :
    ∀ d ∈ (_detect_statistical_anomalies samples s1).filterMap keyOfRec,
      d ∈ (_detect_statistical_anomalies samples s2).filterMap keyOfRec := by
  intro d hd
  simp only [_detect_statistical_anomalies] at hd ⊢
  by_cases hv : popVar (samples.map (fun p => p.2)) = 0
  · rw [if_pos hv] at hd
    simp at hd
  · rw [if_neg hv] at hd ⊢
    rcases List.mem_filterMap.mp hd with ⟨r, hr, hkey⟩
    rcases List.mem_filterMap.mp hr with ⟨i, hi, hrec⟩
    by_cases hc1 : ((samples.map (fun p => p.2)).getD i 0 -
        mean (samples.map (fun p => p.2))) ^ 2 >
        statThreshold s1 ^ 2 * popVar (samples.map (fun p => p.2))
    · rw [if_pos hc1] at hrec
      have hc2 : ((samples.map (fun p => p.2)).getD i 0 -
          mean (samples.map (fun p => p.2))) ^ 2 >
          statThreshold s2 ^ 2 * popVar (samples.map (fun p => p.2)) := by
        have hvnn := popVar_nonneg (samples.map (fun p => p.2))
        have hpow : statThreshold s2 ^ 2 ≤ statThreshold s1 ^ 2 :=
          pow_le_pow_left₀ h0 ht 2
        nlinarith
      refine List.mem_filterMap.mpr ⟨r, List.mem_filterMap.mpr ⟨i, hi, ?_⟩, hkey⟩
      rw [if_pos hc2]
      exact hrec
    · rw [if_neg hc1] at hrec
      cases hrec

/-- Raising the isolation-forest offset can only add flagged dates. -/
theorem ml_dates_subset (samples : List (String × ℚ)) (scores : List ℚ)
    {s1 s2 : String}
    (hoff : npPercentile scores (100 * contaminationOf s1) ≤
      npPercentile scores (100 * contaminationOf s2)) :
    ∀ d ∈ (_detect_ml_anomalies samples scores s1).filterMap keyOfRec,
      d ∈ (_detect_ml_anomalies samples scores s2).filterMap keyOfRec := by
  intro d hd
  simp only [_detect_ml_anomalies] at hd ⊢
  rcases List.mem_filterMap.mp hd with ⟨r, hr, hkey⟩
  rcases List.mem_filterMap.mp hr with ⟨i, hi, hrec⟩
  by_cases hc1 : scores.getD i 0 < npPercentile scores (100 * contaminationOf s1)
  · rw [if_pos hc1] at hrec
    have hc2 : scores.getD i 0 < npPercentile scores (100 * contaminationOf s2) :=
      lt_of_lt_of_le hc1 hoff
    refine List.mem_filterMap.mpr
      ⟨⟨"ml_anomaly", none,
          (if scores.getD i 0 - npPercentile scores (100 * contaminationOf s2) <
              -(1/2) then "high" else "medium"),
          none, some (samples.getD i ("", 0)).1,
          some (pyRound (samples.getD i ("", 0)).2 2), none,
          some (pyRound |scores.getD i 0 -
            npPercentile scores (100 * contaminationOf s2)| 3), none, none, none,
          none, some "isolation_forest"⟩,
        List.mem_filterMap.mpr ⟨i, hi, by rw [if_pos hc2]⟩, ?_⟩
    have hr1 := Option.some.inj hrec
    rw [← hr1] at hkey
    exact hkey
  · rw [if_neg hc1] at hrec
    cases hrec

/-- Loosening the moving-average threshold can only add flagged dates. -/
theorem trend_dates_subset (samples : List (String × ℚ)) {s1 s2 : String}
    (ht : trendThreshold s2 ≤ trendThreshold s1) :
    ∀ d ∈ (_detect_trend_anomalies samples s1).filterMap keyOfRec,
      d ∈ (_detect_trend_anomalies samples s2).filterMap keyOfRec := by
  intro d hd
  simp only [_detect_trend_anomalies] at hd ⊢
  by_cases hn : samples.length < 5
  · rw [if_pos hn] at hd
    simp at hd
  · rw [if_neg hn] at hd ⊢
    rcases List.mem_filterMap.mp hd with ⟨r, hr, hkey⟩
    rcases List.mem_filterMap.mp hr with ⟨i, hi, hrec⟩
    cases hma : movingAvgAt (samples.map (fun p => p.2))
        (min 7 (samples.length / 2)) i with
    | none =>
      simp only [hma] at hrec
      cases hrec
    | some mAvg =>
      simp only [hma] at hrec
      by_cases hdev : |(samples.map (fun p => p.2)).getD i 0 - mAvg| /
          (mAvg + 1/1000) > trendThreshold s1
      · rw [if_pos hdev] at hrec
        have hdev2 : |(samples.map (fun p => p.2)).getD i 0 - mAvg| /
            (mAvg + 1/1000) > trendThreshold s2 := lt_of_le_of_lt ht hdev
        refine List.mem_filterMap.mpr ⟨r, List.mem_filterMap.mpr ⟨i, hi, ?_⟩, hkey⟩
        simp only [hma]
        rw [if_pos hdev2]
        exact hrec
      · rw [if_neg hdev] at hrec
        cases hrec

/-- Loosening every per-method threshold can only grow the set of distinct
flagged dates of the merged candidate list. -/
theorem candidate_dates_subset (samples : List (String × ℚ)) (scores : List ℚ)
    {s1 s2 : String}
    (hstat : statThreshold s2 ≤ statThreshold s1) (hstat0 : 0 ≤ statThreshold s2)
    (hoff : npPercentile scores (100 * contaminationOf s1) ≤
      npPercentile scores (100 * contaminationOf s2))
    (htrend : trendThreshold s2 ≤ trendThreshold s1) :
    ((anomalyCandidates samples scores s1).filterMap keyOfRec).toFinset ⊆
      ((anomalyCandidates samples scores s2).filterMap keyOfRec).toFinset := by
  intro d hd
  rw [List.mem_toFinset] at hd ⊢
  unfold anomalyCandidates at hd ⊢
  rw [List.filterMap_append, List.filterMap_append, List.mem_append,
    List.mem_append] at hd ⊢
  rcases hd with (hd | hd) | hd
  · exact Or.inl (Or.inl (stat_dates_subset samples hstat hstat0 d hd))
  · by_cases hvaried : 1 < (samples.map (fun p => p.2)).dedup.length
    · rw [if_pos hvaried] at hd ⊢
      exact Or.inl (Or.inr (ml_dates_subset samples scores hoff d hd))
    · rw [if_neg hvaried] at hd
      simp at hd
  · exact Or.inr (trend_dates_subset samples htrend d hd)

/-- Closed form of the number of returned records on the active path: 1
when no date is flagged, otherwise the number of distinct flagged dates
capped at 10. -/
theorem detect_length_eq (account_id : String) (samples : List (String × ℚ))
    (scores : List ℚ) (sensitivity : String)
    (h7 : ¬ samples.length < 7)
    (hnz : ((samples.map (fun p => p.2)).all (fun x => x = 0)) = false) :
    (detect_anomalies account_id samples scores sensitivity).length =
      if (((anomalyCandidates samples scores sensitivity).filterMap
          keyOfRec).toFinset).card = 0 then 1
      else min 10 (((anomalyCandidates samples scores sensitivity).filterMap
          keyOfRec).toFinset).card := by
  rw [detect_eq_of_active account_id samples scores sensitivity h7 hnz]
  have hlen := dedup_length (anomalyCandidates samples scores sensitivity)
  rw [← uniqueAnomalies_def] at hlen
  by_cases he : (uniqueAnomalies samples scores sensitivity).isEmpty
  · rw [if_pos he]
    rw [List.isEmpty_iff] at he
    have hcard0 : (((anomalyCandidates samples scores sensitivity).filterMap
        keyOfRec).toFinset).card = 0 := by
      rw [← hlen, he]
      rfl
    rw [if_pos hcard0]
    rfl
  · rw [if_neg he]
    have hne : uniqueAnomalies samples scores sensitivity ≠ [] := by
      simpa [List.isEmpty_iff] using he
    have hpos : 0 < (uniqueAnomalies samples scores sensitivity).length :=
      List.length_pos.mpr hne
    have hcardpos : (((anomalyCandidates samples scores sensitivity).filterMap
        keyOfRec).toFinset).card ≠ 0 := by
      rw [← hlen]
      omega
    rw [if_neg hcardpos, List.length_take, hlen]

/-- Monotone date sets give monotone record counts on the active path. -/
theorem detect_length_mono (account_id : String) (samples : List (String × ℚ))
    (scores : List ℚ) {s1 s2 : String}
    (h7 : ¬ samples.length < 7)
    (hnz : ((samples.map (fun p => p.2)).all (fun x => x = 0)) = false)
    (hsub : ((anomalyCandidates samples scores s1).filterMap keyOfRec).toFinset ⊆
      ((anomalyCandidates samples scores s2).filterMap keyOfRec).toFinset) :
    (detect_anomalies account_id samples scores s1).length ≤
      (detect_anomalies account_id samples scores s2).length := by
  rw [detect_length_eq account_id samples scores s1 h7 hnz,
    detect_length_eq account_id samples scores s2 h7 hnz]
  have hcard := Finset.card_le_card hsub
  by_cases h1 : (((anomalyCandidates samples scores s1).filterMap
      keyOfRec).toFinset).card = 0
  · rw [if_pos h1]
    by_cases h2 : (((anomalyCandidates samples scores s2).filterMap
        keyOfRec).toFinset).card = 0
    · rw [if_pos h2]
    · rw [if_neg h2]
      exact le_min (by norm_num) (Nat.one_le_iff_ne_zero.mpr h2)
  · have h2 : (((anomalyCandidates samples scores s2).filterMap
        keyOfRec).toFinset).card ≠ 0 := by omega
    rw [if_neg h1, if_neg h2]
    exact min_le_min (le_refl 10) hcard

/-- C2. Anomaly merge policy: on the active path the detector returns the
top-10 cut of the deduplicated candidate list (or a single informational
record when it is empty); the deduplicated list draws every record from the
three methods' candidates, holds at most one record per date, gives each
date a candidate of maximal severity rank among the candidates for that
date, covers every flagged date, is sorted by `(severity score, date)`
descending, and at most 10 records are returned. -/
theorem anomaly_merge_policy (account_id : String) (samples : List (String × ℚ))
    (scores : List ℚ) (sensitivity : String)
    (h7 : 7 ≤ samples.length) (hnz : ¬ ∀ p ∈ samples, p.2 = 0) :
    (detect_anomalies account_id samples scores sensitivity =
      if (uniqueAnomalies samples scores sensitivity).isEmpty then
        [noSignificantRec account_id (samples.map (fun p => p.1)) samples.length
          sensitivity]
      else (uniqueAnomalies samples scores sensitivity).take 10) ∧
    (∀ r ∈ uniqueAnomalies samples scores sensitivity,
      r ∈ anomalyCandidates samples scores sensitivity) ∧
    ((uniqueAnomalies samples scores sensitivity).map (fun r => r.date)).Nodup ∧
    (∀ r ∈ uniqueAnomalies samples scores sensitivity,
      ∀ c ∈ anomalyCandidates samples scores sensitivity, c.date = r.date →
        _get_severity_score c.severity ≤ _get_severity_score r.severity) ∧
    (∀ c ∈ anomalyCandidates samples scores sensitivity, ∀ d,
      keyOfRec c = some d →
        ∃ r ∈ uniqueAnomalies samples scores sensitivity, r.date = some d) ∧
    (uniqueAnomalies samples scores sensitivity).Pairwise
      (fun a b => sortKeyGe a b = true) ∧
    (detect_anomalies account_id samples scores sensitivity).length ≤ 10 := by
  have hb := all_zero_eq_false_of_not hnz
  have h7h : ¬ samples.length < 7 := by omega
  have heq := detect_eq_of_active account_id samples scores sensitivity h7h hb
  refine ⟨heq, ?_, ?_, ?_, ?_, ?_, ?_⟩
  · intro r hr
    exact dedup_mem_subset hr
  · exact dedup_dates_nodup (anomalyCandidates samples scores sensitivity)
  · intro r hr c hc hcd
    exact dedup_max hr hc hcd
  · intro c hc d hd
    exact dedup_cover hc hd
  · exact dedup_sorted (anomalyCandidates samples scores sensitivity)
  · rw [heq]
    by_cases he : (uniqueAnomalies samples scores sensitivity).isEmpty
    · rw [if_pos he]
      simp
    · rw [if_neg he, List.length_take]
      exact min_le_left _ _

/-- Witness for C2 at the concrete spike series. -/
theorem anomaly_merge_policy_witness :
    (7 ≤ List.length spikeSamples) ∧ (¬ ∀ p ∈ spikeSamples, p.2 = 0) ∧
    (uniqueAnomalies spikeSamples [] "medium").Pairwise
      (fun a b => sortKeyGe a b = true) :=
  ⟨by decide, by decide,
    (anomaly_merge_policy "acct-1" spikeSamples [] "medium" (by decide)
      (by decide)).2.2.2.2.2.1⟩

/-- C1. Monotonicity of sensitivity: on a fixed series of at least 7
non-negative samples that is not all zero, raising the sensitivity from
`low` to `medium` to `high` never decreases the number of returned anomaly
records: each method's threshold only loosens (z-score 3.0/2.5/2.0,
contamination 0.05/0.10/0.15 through the percentile offset, moving-average
deviation 0.5/0.3/0.2), so the set of flagged dates only grows, and the
count — the number of distinct flagged dates capped at 10, or 1 when
nothing is flagged — is monotone. -/
theorem anomaly_count_monotone_in_sensitivity (account_id : String)
    (samples : List (String × ℚ)) (scores : List ℚ)
    (h7 : 7 ≤ samples.length) (_hnn : ∀ p ∈ samples, 0 ≤ p.2)
    (hnz : ¬ ∀ p ∈ samples, p.2 = 0) :
    (detect_anomalies account_id samples scores "low").length ≤
      (detect_anomalies account_id samples scores "medium").length ∧
    (detect_anomalies account_id samples scores "medium").length ≤
      (detect_anomalies account_id samples scores "high").length := by
  have hb := all_zero_eq_false_of_not hnz
  have h7h : ¬ samples.length < 7 := by omega
  have hml : ("medium" : String) ≠ "low" := by decide
  have hhl : ("high" : String) ≠ "low" := by decide
  have hhm : ("high" : String) ≠ "medium" := by decide
  constructor
  · apply detect_length_mono account_id samples scores h7h hb
    apply candidate_dates_subset
    · norm_num [statThreshold, hml]
    · norm_num [statThreshold, hml]
    · apply npPercentile_mono
      · norm_num [contaminationOf]
      · norm_num [contaminationOf, hml]
      · norm_num [contaminationOf, hml]
    · norm_num [trendThreshold, hml]
  · apply detect_length_mono account_id samples scores h7h hb
    apply candidate_dates_subset
    · norm_num [statThreshold, hml, hhl, hhm]
    · norm_num [statThreshold, hhl, hhm]
    · apply npPercentile_mono
      · norm_num [contaminationOf, hml]
      · norm_num [contaminationOf, hml, hhl, hhm]
      · norm_num [contaminationOf, hhl, hhm]
    · norm_num [trendThreshold, hml, hhl, hhm]

/-- Witness for C1 at the concrete spike series. -/
theorem anomaly_count_monotone_in_sensitivity_witness :
    (7 ≤ List.length spikeSamples) ∧ (∀ p ∈ spikeSamples, 0 ≤ p.2) ∧
    (¬ ∀ p ∈ spikeSamples, p.2 = 0) ∧
    ((detect_anomalies "acct-1" spikeSamples [] "low").length ≤
      (detect_anomalies "acct-1" spikeSamples [] "medium").length) :=
  ⟨by decide, by decide, by decide,
    (anomaly_count_monotone_in_sensitivity "acct-1" spikeSamples [] (by decide)
      (by decide) (by decide)).1⟩

end CostWatch
